import Mathlib

/-!
Verification of the storage engine in `cmd/server/server.go` of the
Object-Storage repository.

The engine is shallowly embedded: the filesystem is a pair of an association
list from paths to file contents and a list of existing directories.  A path
is a list of components, mirroring `filepath.Join` on cleaned paths (an
object key such as `a/b` becomes the component list `["a", "b"]`).  File
contents are modelled by an algebraic datatype: payload files hold raw bytes,
metadata files hold a decoded descriptor (standing for its JSON encoding,
whose round-trip fidelity is not at issue in any claim), and `junk` stands
for a file whose contents fail to decode.  Timestamps (`time.Now()`) are
supplied explicitly as a `Nat` argument, and the MD5-plus-hex-encoding
pipeline of `crypto/md5` is an explicit function parameter `md5Hex`, since
the claims relate only its input (the payload bytes written) to the stored
etag.  Failures of the underlying OS calls inside `PutObject` are injected
through explicit fault flags, one per fallible call site of the source.
-/

abbrev FsPath := List String

/-- Mirrors the `Bucket` struct of server.go (`created` is a timestamp tick). -/
structure Bucket where
  name : String
  created : Nat
deriving DecidableEq, Repr

/-- Mirrors the `ObjectMetadata` struct of server.go.  The `key` field keeps
the component-list rendering of the object key string. -/
structure ObjectMetadata where
  key : FsPath
  size : Nat
  contentType : String
  etag : String
  lastModified : Nat
deriving DecidableEq, Repr

/-- Contents of a file in the model: raw payload bytes, a decodable object
descriptor, a decodable bucket descriptor, or undecodable bytes. -/
inductive FileContent where
  | bytes (data : List Nat)
  | objMeta (m : ObjectMetadata)
  | bucketMeta (b : Bucket)
  | junk
deriving DecidableEq, Repr

/-- The filesystem: an association list from paths to contents (first match
wins) plus the set of directories that exist, as a duplicate-free list. -/
structure FS where
  files : List (FsPath × FileContent)
  dirs : List FsPath
deriving DecidableEq, Repr

def lookupFile : List (FsPath × FileContent) → FsPath → Option FileContent
  | [], _ => none
  | e :: l, p => if e.1 = p then some e.2 else lookupFile l p

def dropFile : List (FsPath × FileContent) → FsPath → List (FsPath × FileContent)
  | [], _ => []
  | e :: l, p => if e.1 = p then dropFile l p else e :: dropFile l p

def FS.readFile (fs : FS) (p : FsPath) : Option FileContent :=
  lookupFile fs.files p

def FS.fileExists (fs : FS) (p : FsPath) : Bool :=
  (fs.readFile p).isSome

def FS.dirExists (fs : FS) (p : FsPath) : Bool :=
  decide (p ∈ fs.dirs)

def FS.pathExists (fs : FS) (p : FsPath) : Bool :=
  fs.fileExists p || fs.dirExists p

def FS.writeFile (fs : FS) (p : FsPath) (c : FileContent) : FS :=
  { fs with files := (p, c) :: dropFile fs.files p }

def FS.removeFile (fs : FS) (p : FsPath) : FS :=
  { fs with files := dropFile fs.files p }

def insertDir (ds : List FsPath) (p : FsPath) : List FsPath :=
  if p ∈ ds then ds else p :: ds

/-- Mirrors `os.MkdirAll`: creates the directory and every ancestor. -/
def FS.mkdirAll (fs : FS) (p : FsPath) : FS :=
  { fs with dirs := p.inits.foldl insertDir fs.dirs }

/-- Does `q` start with the components of `p` (inclusive)? -/
def under (p q : FsPath) : Bool :=
  decide (q.take p.length = p)

/-- Does the path have a strict descendant (file or directory) in the tree? -/
def FS.hasChild (fs : FS) (p : FsPath) : Bool :=
  fs.files.any (fun e => under p e.1 && decide (p.length < e.1.length)) ||
    fs.dirs.any (fun d => under p d && decide (p.length < d.length))

inductive RemoveError where
  | doesNotExist
  | dirNotEmpty
deriving DecidableEq, Repr

/-- Mirrors `os.Remove`: deletes a file or an empty directory; an error on a
missing path satisfies `os.IsNotExist`. -/
def FS.remove (fs : FS) (p : FsPath) : Except RemoveError FS :=
  if fs.fileExists p then .ok (fs.removeFile p)
  else if fs.dirExists p then
    if fs.hasChild p then .error .dirNotEmpty
    else .ok { fs with dirs := fs.dirs.filter (fun d => decide (d ≠ p)) }
  else .error .doesNotExist

/-- Mirrors `os.Remove` with its result discarded (as on the cleanup paths of
`PutObject`, which ignore the returned error). -/
def FS.removeQuiet (fs : FS) (p : FsPath) : FS :=
  match fs.remove p with
  | .ok fs' => fs'
  | .error _ => fs

/-- Mirrors `os.Rename` on a file: the destination is replaced atomically. -/
def FS.rename (fs : FS) (oldPath newPath : FsPath) : Except Unit FS :=
  match fs.readFile oldPath with
  | none => .error ()
  | some c => .ok ((fs.removeFile oldPath).writeFile newPath c)

structure DirEntry where
  name : String
  isDir : Bool
deriving DecidableEq, Repr

/-- The name of `q` as a direct child of `p`, if it is one. -/
def childOf (p q : FsPath) : Option String :=
  if under p q && decide (q.length = p.length + 1) then q.getLast? else none

def FS.childNamesD (fs : FS) (p : FsPath) : List String :=
  (fs.dirs.filterMap (childOf p)).dedup

def FS.childNamesF (fs : FS) (p : FsPath) : List String :=
  ((fs.files.map (fun e => e.1)).filterMap (childOf p)).dedup

/-- Mirrors `os.ReadDir`: fails when the directory does not exist, and lists
the direct children together with whether each is a directory. -/
def FS.readDir (fs : FS) (p : FsPath) : Option (List DirEntry) :=
  if fs.dirExists p then
    some ((fs.childNamesD p).map (fun n => ⟨n, true⟩) ++
      (fs.childNamesF p).map (fun n => ⟨n, false⟩))
  else none

/-- Paths of all files strictly below `p`, relative to `p` (the files visited
by `filepath.Walk` once directories are filtered out by the callback). -/
def FS.filesUnder (fs : FS) (p : FsPath) : List FsPath :=
  fs.files.filterMap (fun e =>
    if under p e.1 && decide (p.length < e.1.length)
    then some (e.1.drop p.length) else none)

def dataDir : FsPath := ["data"]

def metadataDir : FsPath := ["metadata"]

/-- The key string with `".json"` appended, in component form: `key+".json"`
of the source affects the final component of the joined path. -/
def addJson : FsPath → FsPath
  | [] => [".json"]
  | [x] => [x ++ ".json"]
  | x :: y :: ys => x :: addJson (y :: ys)

def objPath (bucketName : String) (objectKey : FsPath) : FsPath :=
  dataDir ++ [bucketName] ++ objectKey

def metaPath (bucketName : String) (objectKey : FsPath) : FsPath :=
  metadataDir ++ [bucketName] ++ addJson objectKey

def bucketRecordPath (bucketName : String) : FsPath :=
  metadataDir ++ [bucketName ++ ".json"]

/-- Mirrors `NewObjectStorage`: creates the two tree roots under the base. -/
def NewObjectStorage : FS :=
  (FS.mk [] []).mkdirAll dataDir |>.mkdirAll metadataDir

/-- Mirrors `saveBucketMetaData` (marshalling cannot fail on this struct). -/
def saveBucketMetaData (fs : FS) (bucket : Bucket) : FS :=
  let metadataPath := bucketRecordPath bucket.name
  (fs.mkdirAll metadataPath.dropLast).writeFile metadataPath (.bucketMeta bucket)

/-- Mirrors `CreateBucket`: makes the payload directory, then writes the
bucket record with the current time. -/
def CreateBucket (fs : FS) (bucketName : String) (now : Nat) : FS :=
  saveBucketMetaData (fs.mkdirAll (dataDir ++ [bucketName]))
    { name := bucketName, created := now }

/-- Mirrors `saveObjectMetaData`: ensures the metadata directory, then writes
the object descriptor under `metadata/<bucket>/<key>.json`. -/
def saveObjectMetaData (fs : FS) (bucketName : String) (m : ObjectMetadata) : FS :=
  let metadataPath := metaPath bucketName m.key
  (fs.mkdirAll metadataPath.dropLast).writeFile metadataPath (.objMeta m)

/-- Mirrors `loadObjectMetadata`: a missing record and an undecodable record
are both errors. -/
def loadObjectMetadata (fs : FS) (bucketName : String) (objectKey : FsPath) :
    Except Unit ObjectMetadata :=
  match fs.readFile (metaPath bucketName objectKey) with
  | none => .error ()
  | some (.objMeta m) => .ok m
  | some _ => .error ()

/-- Mirrors `loadBucketMetadata`: when the record cannot be read it returns a
fabricated bucket (name from the directory, `created` from `time.Now()`) with
a nil error; only an undecodable record is an error. -/
def loadBucketMetadata (fs : FS) (bucketName : String) (now : Nat) :
    Except Unit Bucket :=
  match fs.readFile (bucketRecordPath bucketName) with
  | none => .ok { name := bucketName, created := now }
  | some (.bucketMeta b) => .ok b
  | some _ => .error ()

/-- Candidate temporary-file names of the shape `upload-*.tmp` used by
`os.CreateTemp(objectDir, "upload-*.tmp")`. -/
def tempName (n : Nat) : String :=
  "upload-" ++ String.mk (List.replicate n ('x')) ++ ".tmp"

/-- A fresh temporary-file name in `dir`: `os.CreateTemp` retries random
names until it finds one that does not collide with an existing file. -/
def freshTempName (fs : FS) (dir : FsPath) : String :=
  match (List.range (fs.files.length + 1)).find?
      (fun n => !(fs.fileExists (dir ++ [tempName n]))) with
  | some n => tempName n
  | none => "upload-.tmp"

inductive PutError where
  | mkdirFailed
  | createTempFailed
  | writeDataFailed
  | renameFailed
  | saveMetadataFailed
deriving DecidableEq, Repr

/-- One fault flag per fallible OS call site inside `PutObject`. -/
structure PutFaults where
  mkdirFail : Bool
  createTempFail : Bool
  copyFail : Bool
  renameFail : Bool
  saveMetaFail : Bool
deriving DecidableEq, Repr

def noFaults : PutFaults :=
  ⟨false, false, false, false, false⟩

/-- Mirrors `PutObject`: make the object directory, stream the payload into a
fresh temporary file while hashing it, rename the temporary file onto the
final path, then write the metadata record.  On a copy or rename failure the
temporary file is removed (ignoring the removal error, as the source does).
The filesystem reached at the point of each outcome is returned alongside. -/
def PutObject (flt : PutFaults) (md5Hex : List Nat → String) (fs : FS)
    (bucketName : String) (objectKey : FsPath) (data : List Nat)
    (contentType : String) (now : Nat) :
    Except PutError ObjectMetadata × FS :=
  let objectPath := objPath bucketName objectKey
  let objectDir := objectPath.dropLast
  if flt.mkdirFail then (.error .mkdirFailed, fs) else
  let fs1 := fs.mkdirAll objectDir
  if flt.createTempFail then (.error .createTempFailed, fs1) else
  let tempPath := objectDir ++ [freshTempName fs1 objectDir]
  let fs2 := fs1.writeFile tempPath (.bytes [])
  if flt.copyFail then (.error .writeDataFailed, fs2.removeQuiet tempPath) else
  let fs3 := fs2.writeFile tempPath (.bytes data)
  if flt.renameFail then (.error .renameFailed, fs3.removeQuiet tempPath) else
  match fs3.rename tempPath objectPath with
  | .error _ => (.error .renameFailed, fs3.removeQuiet tempPath)
  | .ok fs4 =>
    let metadata : ObjectMetadata :=
      { key := objectKey, size := data.length, contentType := contentType,
        etag := md5Hex data, lastModified := now }
    if flt.saveMetaFail then
      (.error .saveMetadataFailed,
        fs4.mkdirAll (metaPath bucketName objectKey).dropLast)
    else
      (.ok metadata, saveObjectMetaData fs4 bucketName metadata)

inductive GetError where
  | objectNotFound
  | openFailed
  | loadMetadataFailed
deriving DecidableEq, Repr

/-- What `os.Open` hands back on an existing path: a file's contents, or a
directory handle (opening a directory succeeds). -/
inductive Handle where
  | file (c : FileContent)
  | dir
deriving DecidableEq, Repr

def FS.openPath (fs : FS) (p : FsPath) : Except Unit Handle :=
  match fs.readFile p with
  | some c => .ok (.file c)
  | none => if fs.dirExists p then .ok .dir else .error ()

/-- Mirrors `GetObject`: `Stat` plus `IsNotExist` gates the not-found error,
then the payload is opened and the metadata record loaded; a metadata failure
closes the file and reports an error without returning a stream. -/
def GetObject (fs : FS) (bucketName : String) (objectKey : FsPath) :
    Except GetError (Handle × ObjectMetadata) :=
  let objectPath := objPath bucketName objectKey
  if !(fs.pathExists objectPath) then .error .objectNotFound
  else
    match fs.openPath objectPath with
    | .error _ => .error .openFailed
    | .ok h =>
      match loadObjectMetadata fs bucketName objectKey with
      | .error _ => .error .loadMetadataFailed
      | .ok m => .ok (h, m)

/-- Mirrors `DeleteObject`.  Note that the source computes the metadata path
by joining `storage.dataDir` (not `storage.metadataDir`) with
`objectKey+".json"`; the embedding reproduces that join. -/
def DeleteObject (fs : FS) (bucketName : String) (objectKey : FsPath) :
    Except Unit FS :=
  let objectPath := objPath bucketName objectKey
  let step1 : Except Unit FS :=
    match fs.remove objectPath with
    | .ok fs' => .ok fs'
    | .error .doesNotExist => .ok fs
    | .error .dirNotEmpty => .error ()
  match step1 with
  | .error e => .error e
  | .ok fs1 =>
    let metadataPath := dataDir ++ [bucketName] ++ addJson objectKey
    match fs1.remove metadataPath with
    | .ok fs2 => .ok fs2
    | .error .doesNotExist => .ok fs1
    | .error .dirNotEmpty => .error ()

/-- Mirrors `ListBuckets`: read the data directory, and for each directory
entry load its bucket metadata, skipping entries whose load reports an
error. -/
def ListBuckets (fs : FS) (now : Nat) : Except Unit (List Bucket) :=
  match fs.readDir dataDir with
  | none => .error ()
  | some entries =>
    .ok (entries.filterMap (fun e =>
      if e.isDir then
        match loadBucketMetadata fs e.name now with
        | .ok b => some b
        | .error _ => none
      else none))

/-- Mirrors `ListObjects`: `filepath.Walk` over the bucket's payload
directory.  A stat failure on the root is propagated; each file below the
root is resolved to its metadata record, and entries whose record fails to
load are skipped.  A payload root that is itself a file is visited once with
relative path `"."`. -/
def ListObjects (fs : FS) (bucketName : String) :
    Except Unit (List ObjectMetadata) :=
  let bucketPath := dataDir ++ [bucketName]
  if fs.dirExists bucketPath then
    .ok ((fs.filesUnder bucketPath).filterMap
      (fun rel => (loadObjectMetadata fs bucketName rel).toOption))
  else if fs.fileExists bucketPath then
    .ok ((loadObjectMetadata fs bucketName ["."]).toOption.toList)
  else .error ()

/-- A well-formed path component: nonempty, no separator, not a dot-name
(the regime in which `filepath.Join` is plain concatenation, so that the
component-list path model coincides with the source's string paths). -/
def ValidName (s : String) : Prop :=
  s ≠ "" ∧ (Char.ofNat 47) ∉ s.data ∧ s ≠ "." ∧ s ≠ ".."

instance (s : String) : Decidable (ValidName s) := by
  unfold ValidName; infer_instance

def ValidKey (k : FsPath) : Prop :=
  k ≠ [] ∧ ∀ c ∈ k, ValidName c

instance (k : FsPath) : Decidable (ValidKey k) := by
  unfold ValidKey; infer_instance


/-! ### Basic filesystem lemmas -/

theorem insertDir_mem (ds : List FsPath) (a q : FsPath) :
    q ∈ insertDir ds a ↔ q ∈ ds ∨ q = a := by
  unfold insertDir
  split
  · next h =>
    constructor
    · exact fun hq => Or.inl hq
    · rintro (hq | rfl)
      · exact hq
      · exact h
  · rw [List.mem_cons]
    tauto

theorem foldl_insertDir_mem (l : List FsPath) (ds : List FsPath) (q : FsPath) :
    q ∈ l.foldl insertDir ds ↔ q ∈ ds ∨ q ∈ l := by
  induction l generalizing ds with
  | nil => simp
  | cons a l ih =>
    rw [List.foldl_cons, ih, insertDir_mem, List.mem_cons]
    tauto

theorem files_mkdirAll (fs : FS) (p : FsPath) : (fs.mkdirAll p).files = fs.files :=
  rfl

theorem dirExists_mkdirAll (fs : FS) (p q : FsPath) :
    (fs.mkdirAll p).dirExists q = (fs.dirExists q || decide (q <+: p)) := by
  have h := foldl_insertDir_mem p.inits fs.dirs q
  rw [List.mem_inits] at h
  simp only [FS.mkdirAll, FS.dirExists]
  by_cases h1 : q ∈ fs.dirs <;> by_cases h2 : q <+: p <;> simp [h, h1, h2]

theorem readFile_mkdirAll (fs : FS) (p q : FsPath) :
    (fs.mkdirAll p).readFile q = fs.readFile q :=
  rfl

theorem fileExists_mkdirAll (fs : FS) (p q : FsPath) :
    (fs.mkdirAll p).fileExists q = fs.fileExists q :=
  rfl

theorem dirs_writeFile (fs : FS) (p : FsPath) (c : FileContent) :
    (fs.writeFile p c).dirs = fs.dirs :=
  rfl

theorem dirs_removeFile (fs : FS) (p : FsPath) :
    (fs.removeFile p).dirs = fs.dirs :=
  rfl

theorem lookupFile_dropFile (l : List (FsPath × FileContent)) (p q : FsPath) :
    lookupFile (dropFile l p) q = if q = p then none else lookupFile l q := by
  induction l with
  | nil => simp [lookupFile, dropFile]
  | cons e l ih =>
    rw [dropFile]
    by_cases h1 : e.1 = p
    · rw [if_pos h1, ih]
      by_cases h2 : q = p
      · simp [h2]
      · have h3 : ¬ e.1 = q := fun h => h2 (h.symm.trans h1)
        simp [h2, lookupFile, h3]
    · rw [if_neg h1, lookupFile, lookupFile]
      by_cases h3 : e.1 = q
      · have h2 : ¬ q = p := fun h => h1 (h3.trans h)
        simp [h3, h2]
      · simp [h3, ih]

theorem readFile_writeFile (fs : FS) (p q : FsPath) (c : FileContent) :
    (fs.writeFile p c).readFile q = if q = p then some c else fs.readFile q := by
  show lookupFile ((p, c) :: dropFile fs.files p) q = _
  rw [lookupFile]
  by_cases h : q = p
  · rw [if_pos h, if_pos h.symm]
  · rw [if_neg h, if_neg (fun h2 => h h2.symm), lookupFile_dropFile, if_neg h]
    rfl

theorem readFile_removeFile (fs : FS) (p q : FsPath) :
    (fs.removeFile p).readFile q = if q = p then none else fs.readFile q :=
  lookupFile_dropFile fs.files p q

theorem fileExists_writeFile (fs : FS) (p q : FsPath) (c : FileContent) :
    (fs.writeFile p c).fileExists q = (decide (q = p) || fs.fileExists q) := by
  rw [FS.fileExists, FS.fileExists, readFile_writeFile]
  by_cases h : q = p <;> simp [h]

theorem fileExists_removeFile (fs : FS) (p q : FsPath) :
    (fs.removeFile p).fileExists q = (decide (q ≠ p) && fs.fileExists q) := by
  rw [FS.fileExists, FS.fileExists, readFile_removeFile]
  by_cases h : q = p <;> simp [h]

theorem dropFile_of_fresh (l : List (FsPath × FileContent)) (p : FsPath)
    (h : lookupFile l p = none) : dropFile l p = l := by
  induction l with
  | nil => rfl
  | cons e l ih =>
    rw [lookupFile] at h
    by_cases h1 : e.1 = p
    · rw [if_pos h1] at h
      exact absurd h (by simp)
    · rw [if_neg h1] at h
      rw [dropFile, if_neg h1, ih h]

theorem lookupFile_isSome_iff (l : List (FsPath × FileContent)) (p : FsPath) :
    (lookupFile l p).isSome = true ↔ ∃ c, (p, c) ∈ l := by
  induction l with
  | nil => simp [lookupFile]
  | cons e l ih =>
    rw [lookupFile]
    by_cases h1 : e.1 = p
    · subst h1
      rw [if_pos rfl]
      constructor
      · intro _
        refine ⟨e.2, ?_⟩
        rw [Prod.mk.eta]
        exact List.mem_cons_self e l
      · intro _
        rfl
    · rw [if_neg h1, ih]
      constructor
      · rintro ⟨c, hc⟩
        exact ⟨c, List.mem_cons_of_mem _ hc⟩
      · rintro ⟨c, hc⟩
        rcases List.mem_cons.mp hc with h | h
        · exact absurd (congrArg Prod.fst h.symm) h1
        · exact ⟨c, h⟩

theorem fileExists_iff_mem (fs : FS) (p : FsPath) :
    fs.fileExists p = true ↔ ∃ c, (p, c) ∈ fs.files :=
  lookupFile_isSome_iff fs.files p

theorem lookupFile_eq_none_iff (l : List (FsPath × FileContent)) (p : FsPath) :
    lookupFile l p = none ↔ ∀ e ∈ l, e.1 ≠ p := by
  constructor
  · intro h e he hep
    have : (lookupFile l p).isSome = true :=
      (lookupFile_isSome_iff l p).mpr ⟨e.2, by rwa [← hep, Prod.mk.eta]⟩
    rw [h] at this
    exact absurd this (by simp)
  · intro h
    rcases hl : lookupFile l p with _ | c
    · rfl
    · exfalso
      have : (lookupFile l p).isSome = true := by rw [hl]; rfl
      rcases (lookupFile_isSome_iff l p).mp this with ⟨c', hc'⟩
      exact h _ hc' rfl

theorem readFile_eq_none_of_fileExists_false (fs : FS) (p : FsPath)
    (h : fs.fileExists p = false) : fs.readFile p = none := by
  rw [FS.fileExists] at h
  rcases hr : fs.readFile p with _ | c
  · rfl
  · rw [hr] at h
    exact absurd h (by simp)

/-! ### Freshness of the temporary file name -/

theorem tempName_inj (a b : Nat) (h : tempName a = tempName b) : a = b := by
  have hl := congrArg String.length h
  simp only [tempName, String.length_append, String.length_mk,
    List.length_replicate] at hl
  omega

theorem exists_fresh_temp (fs : FS) (dir : FsPath) :
    ∃ n ∈ List.range (fs.files.length + 1),
      (!(fs.fileExists (dir ++ [tempName n]))) = true := by
  by_contra hcon
  push_neg at hcon
  have hall : ∀ n ∈ List.range (fs.files.length + 1),
      dir ++ [tempName n] ∈ fs.files.map Prod.fst := by
    intro n hn
    have h1 := hcon n hn
    simp at h1
    rcases (fileExists_iff_mem fs _).mp h1 with ⟨c, hc⟩
    exact List.mem_map.mpr ⟨(dir ++ [tempName n], c), hc, rfl⟩
  have hinj : Function.Injective (fun n => dir ++ [tempName n]) := by
    intro a b hab
    have h2 : [tempName a] = [tempName b] := List.append_cancel_left hab
    exact tempName_inj a b (by injection h2)
  have hnd : ((List.range (fs.files.length + 1)).map
      (fun n => dir ++ [tempName n])).Nodup :=
    (List.nodup_range _).map hinj
  have hsub : ((List.range (fs.files.length + 1)).map
      (fun n => dir ++ [tempName n])) ⊆ fs.files.map Prod.fst := by
    intro x hx
    rcases List.mem_map.mp hx with ⟨n, hn, rfl⟩
    exact hall n hn
  have hle := (hnd.subperm hsub).length_le
  simp only [List.length_map, List.length_range] at hle
  omega

theorem freshTempName_fresh (fs : FS) (dir : FsPath) :
    fs.fileExists (dir ++ [freshTempName fs dir]) = false := by
  unfold freshTempName
  split
  · next n hf =>
    have := List.find?_some hf
    simpa using this
  · next hf =>
    exfalso
    rcases exists_fresh_temp fs dir with ⟨n, hn, hp⟩
    exact (List.find?_eq_none.mp hf n hn) hp

/-! ### Characterizing a fault-free PutObject -/

/-- The descriptor produced by a successful `PutObject` of `d` under `k`. -/
def putMeta (md5Hex : List Nat → String) (k : FsPath) (d : List Nat)
    (ct : String) (now : Nat) : ObjectMetadata :=
  { key := k, size := d.length, contentType := ct, etag := md5Hex d,
    lastModified := now }

theorem objPath_ne_metaPath (b b' : String) (k k' : FsPath) :
    objPath b k ≠ metaPath b' k' := by
  intro h
  have h1 : "data" = "metadata" := by
    have h2 := congrArg (fun l => l.head?) h
    simpa [objPath, metaPath, dataDir, metadataDir] using h2
  exact absurd h1 (by decide)


theorem dropFile_cons_self (e : FsPath × FileContent)
    (l : List (FsPath × FileContent)) (p : FsPath) (h : e.1 = p) :
    dropFile (e :: l) p = dropFile l p := by
  rw [dropFile, if_pos h]

theorem dropFile_cons_ne (e : FsPath × FileContent)
    (l : List (FsPath × FileContent)) (p : FsPath) (h : e.1 ≠ p) :
    dropFile (e :: l) p = e :: dropFile l p := by
  rw [dropFile, if_neg h]

theorem lookupFile_cons_self (e : FsPath × FileContent)
    (l : List (FsPath × FileContent)) (p : FsPath) (h : e.1 = p) :
    lookupFile (e :: l) p = some e.2 := by
  rw [lookupFile, if_pos h]

theorem lookupFile_cons_ne (e : FsPath × FileContent)
    (l : List (FsPath × FileContent)) (p : FsPath) (h : e.1 ≠ p) :
    lookupFile (e :: l) p = lookupFile l p := by
  rw [lookupFile, if_neg h]
theorem putObject_noFaults (md5Hex : List Nat → String) (fs : FS)
    (b : String) (k : FsPath) (d : List Nat) (ct : String) (now : Nat) :
    PutObject noFaults md5Hex fs b k d ct now =
      (.ok (putMeta md5Hex k d ct now),
       { files := (metaPath b k, .objMeta (putMeta md5Hex k d ct now)) ::
           (objPath b k, .bytes d) ::
           dropFile (dropFile fs.files (objPath b k)) (metaPath b k),
         dirs := (metaPath b k).dropLast.inits.foldl insertDir
           ((objPath b k).dropLast.inits.foldl insertDir fs.dirs) }) := by
  have hfr := freshTempName_fresh (fs.mkdirAll (objPath b k).dropLast)
    (objPath b k).dropLast
  have hnone := readFile_eq_none_of_fileExists_false _ _ hfr
  rw [FS.readFile, files_mkdirAll] at hnone
  have hdrop := dropFile_of_fresh _ _ hnone
  simp only [FS.mkdirAll] at hnone hdrop
  have hne : objPath b k ≠ metaPath b k := objPath_ne_metaPath b b k k
  simp only [PutObject, noFaults, Bool.false_eq_true, if_false, FS.writeFile,
    FS.mkdirAll, FS.rename, FS.readFile, saveObjectMetaData, putMeta,
    FS.removeFile, hdrop, dropFile_cons_self, lookupFile_cons_self,
    dropFile_cons_ne, hne]
  rw [dropFile_cons_ne _ _ _ (show objPath b k ≠ metaPath b k from hne)]

theorem readFile_putObject (md5Hex : List Nat → String) (fs : FS) (b : String)
    (k : FsPath) (d : List Nat) (ct : String) (now : Nat) (q : FsPath) :
    (PutObject noFaults md5Hex fs b k d ct now).2.readFile q =
      if q = metaPath b k then some (.objMeta (putMeta md5Hex k d ct now))
      else if q = objPath b k then some (.bytes d)
      else fs.readFile q := by
  rw [putObject_noFaults]
  show lookupFile _ q = _
  by_cases h1 : q = metaPath b k
  · rw [if_pos h1, lookupFile_cons_self _ _ _ h1.symm]
  · rw [if_neg h1, lookupFile_cons_ne _ _ _ (fun h => h1 h.symm)]
    by_cases h2 : q = objPath b k
    · rw [if_pos h2, lookupFile_cons_self _ _ _ h2.symm]
    · rw [if_neg h2, lookupFile_cons_ne _ _ _ (fun h => h2 h.symm),
        lookupFile_dropFile, if_neg h1, lookupFile_dropFile, if_neg h2]
      rfl

theorem fileExists_putObject (md5Hex : List Nat → String) (fs : FS) (b : String)
    (k : FsPath) (d : List Nat) (ct : String) (now : Nat) (q : FsPath) :
    (PutObject noFaults md5Hex fs b k d ct now).2.fileExists q =
      (decide (q = metaPath b k) || decide (q = objPath b k) ||
        fs.fileExists q) := by
  rw [FS.fileExists, readFile_putObject]
  by_cases h1 : q = metaPath b k <;> by_cases h2 : q = objPath b k <;>
    simp [h1, h2, FS.fileExists, objPath_ne_metaPath b b k k]

theorem dirExists_putObject (md5Hex : List Nat → String) (fs : FS) (b : String)
    (k : FsPath) (d : List Nat) (ct : String) (now : Nat) (q : FsPath) :
    (PutObject noFaults md5Hex fs b k d ct now).2.dirExists q =
      (fs.dirExists q || decide (q <+: (objPath b k).dropLast) ||
        decide (q <+: (metaPath b k).dropLast)) := by
  rw [putObject_noFaults]
  have key : q ∈ (metaPath b k).dropLast.inits.foldl insertDir
      (((objPath b k).dropLast).inits.foldl insertDir fs.dirs) ↔
      (q ∈ fs.dirs ∨ q <+: (objPath b k).dropLast ∨
        q <+: (metaPath b k).dropLast) := by
    rw [foldl_insertDir_mem, foldl_insertDir_mem, List.mem_inits, List.mem_inits]
    tauto
  show decide _ = _
  by_cases hq : q ∈ fs.dirs ∨ q <+: (objPath b k).dropLast ∨
      q <+: (metaPath b k).dropLast
  · rw [decide_eq_true (key.mpr hq)]
    rcases hq with h | h | h
    · rw [FS.dirExists, decide_eq_true h, Bool.true_or, Bool.true_or]
    · rw [decide_eq_true h, Bool.or_true, Bool.true_or]
    · rw [decide_eq_true h, Bool.or_true]
  · rw [decide_eq_false (fun hmem => hq (key.mp hmem))]
    push_neg at hq
    obtain ⟨hq1, hq2, hq3⟩ := hq
    rw [FS.dirExists, decide_eq_false hq1, decide_eq_false hq2,
      decide_eq_false hq3, Bool.or_false, Bool.or_false]

theorem loadObjectMetadata_putObject_self (md5Hex : List Nat → String) (fs : FS)
    (b : String) (k : FsPath) (d : List Nat) (ct : String) (now : Nat) :
    loadObjectMetadata (PutObject noFaults md5Hex fs b k d ct now).2 b k =
      .ok (putMeta md5Hex k d ct now) := by
  unfold loadObjectMetadata
  rw [readFile_putObject, if_pos rfl]

theorem objPath_ne_nil (b : String) (k : FsPath) : objPath b k ≠ [] := by
  show "data" :: (b :: k) ≠ []
  exact List.cons_ne_nil _ _

theorem not_le_dropLast (p : FsPath) (hp : p ≠ []) : ¬ (p <+: p.dropLast) := by
  intro h
  have h1 := h.length_le
  rw [List.length_dropLast] at h1
  have h2 : 0 < p.length := List.length_pos.mpr hp
  omega

theorem getObject_after_put (md5Hex : List Nat → String) (fs : FS) (b : String)
    (k : FsPath) (d : List Nat) (ct : String) (now : Nat) :
    GetObject (PutObject noFaults md5Hex fs b k d ct now).2 b k =
      .ok (.file (.bytes d), putMeta md5Hex k d ct now) := by
  have hre := readFile_putObject md5Hex fs b k d ct now (objPath b k)
  rw [if_neg (fun h => objPath_ne_metaPath b b k k h), if_pos rfl] at hre
  have hpe : (PutObject noFaults md5Hex fs b k d ct now).2.pathExists
      (objPath b k) = true := by
    rw [FS.pathExists, FS.fileExists, hre]
    rfl
  simp only [GetObject, hpe, Bool.not_true, Bool.false_eq_true, if_false]
  rw [FS.openPath, hre, loadObjectMetadata_putObject_self]

/-! ### Claim C8 -/

/-- C8: the metadata returned by a successful PutObject has `size` equal to
the number of payload bytes written (the byte count is derived from the
write, not taken from the caller — `PutObject` has no size parameter) and
`etag` equal to the hex-encoded MD5 digest (`md5Hex`) of exactly those
bytes. -/
theorem c8_put_metadata_size_etag (md5Hex : List Nat → String) (fs : FS)
    (b : String) (k : FsPath) (d : List Nat) (ct : String) (now : Nat)
    (m : ObjectMetadata) (fs' : FS)
    (h : PutObject noFaults md5Hex fs b k d ct now = (.ok m, fs')) :
    m.size = d.length ∧ m.etag = md5Hex d := by
  have hx := putObject_noFaults md5Hex fs b k d ct now
  rw [h] at hx
  have h1 := congrArg Prod.fst hx
  simp only [Except.ok.injEq] at h1
  rw [h1]
  exact ⟨rfl, rfl⟩

def md5Fix : List Nat → String := fun d => String.mk (List.replicate d.length ('z'))

/-- C8 witness: a concrete put of two bytes. -/
theorem c8_witness :
    (putMeta md5Fix [("k")] [7, 8] ("t") 1).size = 2 ∧
    (putMeta md5Fix [("k")] [7, 8] ("t") 1).etag = md5Fix [7, 8] :=
  c8_put_metadata_size_etag md5Fix NewObjectStorage ("b") [("k")] [7, 8] ("t") 1
    (putMeta md5Fix [("k")] [7, 8] ("t") 1) _
    (putObject_noFaults md5Fix NewObjectStorage ("b") [("k")] [7, 8] ("t") 1)

/-! ### Claim C9 -/

theorem dataBucket_le_objDir (b : String) (k : FsPath) (hk : k ≠ []) :
    (dataDir ++ [b]) <+: (objPath b k).dropLast := by
  rcases List.exists_cons_of_ne_nil hk with ⟨x, xs, rfl⟩
  exact ⟨(x :: xs).dropLast, rfl⟩

/-- C9: PutObject does not require the bucket to exist: starting from a store
with no payload directory and no bucket record for the bucket, a fault-free
PutObject succeeds (the `PutError` type of the embedding has no not-found
constructor: no code path of the source produces one) and the payload
directory exists afterwards. -/
theorem c9_put_into_missing_bucket (md5Hex : List Nat → String) (fs : FS)
    (b : String) (k : FsPath) (d : List Nat) (ct : String) (now : Nat)
    (hb : ValidName b) (hk : ValidKey k)
    (hdir : fs.dirExists (dataDir ++ [b]) = false)
    (hrec : fs.fileExists (bucketRecordPath b) = false) :
    (PutObject noFaults md5Hex fs b k d ct now).1 =
      .ok (putMeta md5Hex k d ct now) ∧
    (PutObject noFaults md5Hex fs b k d ct now).2.dirExists
      (dataDir ++ [b]) = true := by
  constructor
  · rw [putObject_noFaults]
  · rw [dirExists_putObject,
      decide_eq_true (dataBucket_le_objDir b k hk.1), Bool.or_true, Bool.true_or]

/-- C9 witness: putting into the fresh store, whose bucket `b` was never
created. -/
theorem c9_witness :
    ValidName ("b") ∧ ValidKey [("k")] ∧
    NewObjectStorage.dirExists (dataDir ++ [("b")]) = false ∧
    NewObjectStorage.fileExists (bucketRecordPath ("b")) = false ∧
    (PutObject noFaults md5Fix NewObjectStorage ("b") [("k")] [7] ("t") 0).1 =
      .ok (putMeta md5Fix [("k")] [7] ("t") 0) ∧
    (PutObject noFaults md5Fix NewObjectStorage ("b") [("k")] [7] ("t") 0).2.dirExists
      (dataDir ++ [("b")]) = true := by
  refine ⟨by decide, by decide, rfl, rfl, ?_⟩
  exact c9_put_into_missing_bucket md5Fix NewObjectStorage ("b") [("k")] [7]
    ("t") 0 (by decide) (by decide) rfl rfl

/-! ### Claim C5 -/

/-- C5: round-trip: a successful PutObject of bytes `d` followed by
GetObject on the same bucket and key (no interleaving operation) returns
exactly the bytes `d` together with the stored descriptor, and the checksum
returned by PutObject is the content hash of `d`. -/
theorem c5_put_get_roundtrip (md5Hex : List Nat → String) (fs : FS)
    (b : String) (k : FsPath) (d : List Nat) (ct : String) (now : Nat)
    (m : ObjectMetadata) (fs' : FS)
    (hb : ValidName b) (hk : ValidKey k)
    (h : PutObject noFaults md5Hex fs b k d ct now = (.ok m, fs')) :
    GetObject fs' b k = .ok (.file (.bytes d), m) ∧ m.etag = md5Hex d := by
  have hx := putObject_noFaults md5Hex fs b k d ct now
  rw [h] at hx
  have h1 := congrArg Prod.fst hx
  simp only [Except.ok.injEq] at h1
  have h2 : fs' = (PutObject noFaults md5Hex fs b k d ct now).2 := by rw [h]
  rw [h1, h2, getObject_after_put]
  exact ⟨rfl, rfl⟩

/-- C5 witness: a concrete round-trip through the fresh store. -/
theorem c5_witness :
    ValidName ("b") ∧ ValidKey [("k")] ∧
    GetObject (PutObject noFaults md5Fix NewObjectStorage ("b") [("k")] [9, 9, 9]
        ("t") 2).2 ("b") [("k")] =
      .ok (.file (.bytes [9, 9, 9]), putMeta md5Fix [("k")] [9, 9, 9] ("t") 2) ∧
    (putMeta md5Fix [("k")] [9, 9, 9] ("t") 2).etag = md5Fix [9, 9, 9] := by
  refine ⟨by decide, by decide, ?_⟩
  exact c5_put_get_roundtrip md5Fix NewObjectStorage ("b") [("k")] [9, 9, 9]
    ("t") 2 (putMeta md5Fix [("k")] [9, 9, 9] ("t") 2) _ (by decide) (by decide)
    (putObject_noFaults md5Fix NewObjectStorage ("b") [("k")] [9, 9, 9] ("t") 2)

/-! ### Claim C10 -/

/-- C10: when the bucket's payload directory does not exist (neither as a
directory nor as a file), ListObjects propagates the walk error instead of
returning an empty list. -/
theorem c10_list_objects_missing_bucket (fs : FS) (b : String)
    (h : fs.pathExists (dataDir ++ [b]) = false) :
    ListObjects fs b = .error () := by
  rw [FS.pathExists, Bool.or_eq_false_iff] at h
  simp only [ListObjects, h.1, h.2, Bool.false_eq_true, if_false]

/-- C10 witness: listing a bucket that was never created in the fresh
store. -/
theorem c10_witness :
    NewObjectStorage.pathExists (dataDir ++ [("nope")]) = false ∧
    ListObjects NewObjectStorage ("nope") = .error () :=
  ⟨rfl, c10_list_objects_missing_bucket NewObjectStorage ("nope") rfl⟩

/-! ### Claim C1 -/

/-- A populated store: bucket `b` created, object `k` holding two bytes. -/
def fsC1 : FS :=
  (PutObject noFaults md5Fix (CreateBucket NewObjectStorage ("b") 0)
    ("b") [("k")] [7, 8] ("t") 1).2

/-- C1: `DeleteObject` joins the metadata path against `dataDir` instead of
`metadataDir` (server.go line 135), so a successful delete removes the
payload file but leaves the object's metadata record
`metadata/<bucket>/<key>.json` in place, contradicting both the claim and
`saveObjectMetaData`/`loadObjectMetadata`, which use `metadataDir`. -/
theorem c1_delete_leaves_metadata_record :
    ∃ fs', DeleteObject fsC1 ("b") [("k")] = .ok fs' ∧
      fs'.fileExists (objPath ("b") [("k")]) = false ∧
      fs'.fileExists (metaPath ("b") [("k")]) = true :=
  ⟨_, rfl, rfl, rfl⟩

/-! ### Claim C6 -/

/-- C6 counterexample: with a nested object `a/c` in bucket `b`, the key `a`
has no payload file (its payload path is a directory), yet GetObject fails
with the metadata-load error, not the not-found error the claim requires
when no payload file exists. -/
def fsC6 : FS :=
  (PutObject noFaults md5Fix NewObjectStorage ("b") [("a"), ("c")] [1] ("t") 0).2

theorem c6_counterexample :
    fsC6.fileExists (objPath ("b") [("a")]) = false ∧
    GetObject fsC6 ("b") [("a")] = .error .loadMetadataFailed :=
  ⟨rfl, rfl⟩

/-- C6 amended: GetObject fails with the not-found error exactly when the
payload path does not exist at all (neither as a file nor as a directory);
whenever the path exists — including as a directory, where no payload file
exists — and the metadata record is missing or undecodable, GetObject fails
with the metadata-load (IOFailure-kind) error and returns no stream. -/
theorem c6_getobject_errors (fs : FS) (b : String) (k : FsPath) :
    (GetObject fs b k = .error .objectNotFound ↔
      fs.pathExists (objPath b k) = false) ∧
    (fs.pathExists (objPath b k) = true →
      ∀ e, loadObjectMetadata fs b k = .error e →
        GetObject fs b k = .error .loadMetadataFailed) := by
  by_cases hp : fs.pathExists (objPath b k) = true
  · constructor
    · rw [hp]
      simp only [GetObject, hp, Bool.not_true, Bool.false_eq_true, if_false]
      constructor
      · intro heq
        rcases hop : fs.openPath (objPath b k) with u | hdl
        · rw [hop] at heq
          simp at heq
        · rw [hop] at heq
          rcases hl : loadObjectMetadata fs b k with u | m
          · rw [hl] at heq
            simp at heq
          · rw [hl] at heq
            simp at heq
      · intro hfx
        exact absurd hfx (by simp)
    · intro _ e he
      simp only [GetObject, hp, Bool.not_true, Bool.false_eq_true, if_false]
      rcases hop : fs.openPath (objPath b k) with u | hdl
      · exfalso
        rw [FS.openPath] at hop
        rcases hr : fs.readFile (objPath b k) with _ | c
        · rw [hr] at hop
          rw [FS.pathExists, FS.fileExists, hr] at hp
          simp only [Option.isSome_none, Bool.false_or] at hp
          rw [if_pos hp] at hop
          exact absurd hop (by simp)
        · rw [hr] at hop
          exact absurd hop (by simp)
      · rw [he]
  · have hp' : fs.pathExists (objPath b k) = false := by
      rcases hx : fs.pathExists (objPath b k) with _ | _
      · rfl
      · exact absurd hx hp
    constructor
    · rw [hp']
      simp only [GetObject, hp', Bool.not_false, if_true]
    · intro htrue
      rw [hp'] at htrue
      exact absurd htrue (by simp)

/-- C6 witness: the fresh store has no payload for `b/k`, and GetObject
reports not-found there. -/
theorem c6_witness :
    GetObject NewObjectStorage ("b") [("k")] = .error .objectNotFound :=
  (c6_getobject_errors NewObjectStorage ("b") [("k")]).1.mpr rfl

/-! ### Claim C3 -/

/-- A store whose directory tree names a bucket `ghost` but whose bucket
metadata record cannot be read (it is absent). -/
def fsC3 : FS :=
  (CreateBucket NewObjectStorage ("ghost") 5).removeFile (bucketRecordPath ("ghost"))

/-- C3 counterexample: `loadBucketMetadata` returns a fabricated record (name
from the directory, `created` from `time.Now()`) with a nil error when the
record cannot be read, so ListBuckets returns a substitute entry for `ghost`
instead of omitting it as the claim requires. -/
theorem c3_counterexample :
    fsC3.readFile (bucketRecordPath ("ghost")) = none ∧
    ListBuckets fsC3 42 = .ok [{ name := ("ghost"), created := 42 }] :=
  ⟨rfl, rfl⟩

theorem childOf_bucket (name : String) :
    childOf dataDir (dataDir ++ [name]) = some name :=
  rfl

/-- C3 amended: for every directory entry under `data/`, ListBuckets returns
the parsed record when the metadata record decodes; when the record cannot
be read it returns a fabricated record carrying the directory name and the
current time (rather than omitting the bucket); only records that exist but
fail to decode are silently skipped, and every returned bucket is the result
of some directory's successful metadata load. -/
theorem c3_listbuckets_fabricates (fs : FS) (now : Nat) (name : String)
    (bs : List Bucket)
    (hroot : fs.dirExists dataDir = true)
    (hchild : fs.dirExists (dataDir ++ [name]) = true)
    (hls : ListBuckets fs now = .ok bs) :
    (∀ bk, fs.readFile (bucketRecordPath name) = some (.bucketMeta bk) →
      bk ∈ bs) ∧
    (fs.readFile (bucketRecordPath name) = none →
      ({ name := name, created := now } : Bucket) ∈ bs) ∧
    (∀ bk ∈ bs, ∃ n, loadBucketMetadata fs n now = .ok bk) := by
  rw [ListBuckets, FS.readDir, if_pos hroot] at hls
  simp only [Except.ok.injEq] at hls
  subst hls
  have hname : name ∈ fs.childNamesD dataDir := by
    rw [FS.childNamesD, List.mem_dedup]
    refine List.mem_filterMap.mpr ⟨dataDir ++ [name], ?_, childOf_bucket name⟩
    rw [FS.dirExists, decide_eq_true_eq] at hchild
    exact hchild
  have hentry : (⟨name, true⟩ : DirEntry) ∈
      (fs.childNamesD dataDir).map (fun n => (⟨n, true⟩ : DirEntry)) ++
        (fs.childNamesF dataDir).map (fun n => (⟨n, false⟩ : DirEntry)) :=
    List.mem_append_left _ (List.mem_map.mpr ⟨name, hname, rfl⟩)
  refine ⟨?_, ?_, ?_⟩
  · intro bk hread
    refine List.mem_filterMap.mpr ⟨⟨name, true⟩, hentry, ?_⟩
    simp only [if_pos rfl]
    rw [loadBucketMetadata, hread]
    rfl
  · intro hread
    refine List.mem_filterMap.mpr ⟨⟨name, true⟩, hentry, ?_⟩
    simp only [if_pos rfl]
    rw [loadBucketMetadata, hread]
    rfl
  · intro bk hbk
    rcases List.mem_filterMap.mp hbk with ⟨e, hmem, hf⟩
    rcases he : e.isDir with _ | _
    · rw [he] at hf
      simp at hf
    · rw [he] at hf
      rcases hl : loadBucketMetadata fs e.name now with u | b'
      · rw [hl] at hf
        simp at hf
      · rw [hl] at hf
        simp at hf
        exact ⟨e.name, by rw [hl, hf]⟩

/-! ### Claim C2 -/

/-- C2 counterexample: when the metadata write fails after the rename has
already published the payload, PutObject returns an error while the new
payload is visible at the object path (the fresh store had none) with no
metadata record for it. -/
theorem c2_counterexample :
    (PutObject ⟨false, false, false, false, true⟩ md5Fix NewObjectStorage
        ("b") [("k")] [7] ("t") 0).1 = .error .saveMetadataFailed ∧
    (PutObject ⟨false, false, false, false, true⟩ md5Fix NewObjectStorage
        ("b") [("k")] [7] ("t") 0).2.readFile (objPath ("b") [("k")]) =
      some (.bytes [7]) ∧
    NewObjectStorage.readFile (objPath ("b") [("k")]) = none ∧
    (PutObject ⟨false, false, false, false, true⟩ md5Fix NewObjectStorage
        ("b") [("k")] [7] ("t") 0).2.readFile (metaPath ("b") [("k")]) = none :=
  ⟨rfl, rfl, rfl, rfl⟩

theorem dirExists_congr (fsx fsy : FS) (q : FsPath) (h : fsx.dirs = fsy.dirs) :
    fsx.dirExists q = fsy.dirExists q := by
  rw [FS.dirExists, FS.dirExists, h]

theorem dirExists_mkdirAll_objDir (fs : FS) (b : String) (k : FsPath) :
    (fs.mkdirAll (objPath b k).dropLast).dirExists (objPath b k) =
      fs.dirExists (objPath b k) := by
  rw [dirExists_mkdirAll,
    decide_eq_false (not_le_dropLast (objPath b k) (objPath_ne_nil b k)),
    Bool.or_false]

theorem view_of_files_eq (fsx fs : FS) (b : String) (k : FsPath)
    (hfiles : fsx.files = fs.files)
    (hdirs : fsx.dirExists (objPath b k) = fs.dirExists (objPath b k)) :
    fsx.readFile (objPath b k) = fs.readFile (objPath b k) ∧
    fsx.pathExists (objPath b k) = fs.pathExists (objPath b k) ∧
    loadObjectMetadata fsx b k = loadObjectMetadata fs b k := by
  have hrf : ∀ q, fsx.readFile q = fs.readFile q := by
    intro q
    rw [FS.readFile, FS.readFile, hfiles]
  refine ⟨hrf _, ?_, ?_⟩
  · rw [FS.pathExists, FS.pathExists, FS.fileExists, FS.fileExists, hrf, hdirs]
  · unfold loadObjectMetadata
    rw [hrf]

theorem temp_cleanup_view (fs fsx : FS) (D t : FsPath) (c1 : FileContent)
    (hnone : lookupFile fs.files t = none)
    (hfiles : fsx.files = (t, c1) :: fs.files)
    (hdirs : fsx.dirs = (fs.mkdirAll D).dirs) :
    (fsx.removeQuiet t).files = fs.files ∧
    (fsx.removeQuiet t).dirs = (fs.mkdirAll D).dirs := by
  have hfe : fsx.fileExists t = true := by
    rw [FS.fileExists, FS.readFile, hfiles, lookupFile_cons_self _ _ _ rfl]
    rfl
  unfold FS.removeQuiet FS.remove
  rw [if_pos hfe]
  constructor
  · show dropFile fsx.files t = fs.files
    rw [hfiles, dropFile_cons_self _ _ _ rfl, dropFile_of_fresh _ _ hnone]
  · show fsx.dirs = _
    exact hdirs

/-- C2 amended: whenever PutObject returns an error from the directory
creation, temporary-file creation, payload write, or rename step, the reader
view of the bucket/key (payload bytes, stat existence, metadata record) is
unchanged; but when the metadata write fails — the one error site after the
rename — the new payload is already visible (see the counterexample). -/
theorem c2_put_failure_preserves_view (flt : PutFaults)
    (md5Hex : List Nat → String) (fs : FS) (b : String) (k : FsPath)
    (d : List Nat) (ct : String) (now : Nat) (e : PutError) (fs' : FS)
    (hmeta : flt.saveMetaFail = false)
    (h : PutObject flt md5Hex fs b k d ct now = (.error e, fs')) :
    fs'.readFile (objPath b k) = fs.readFile (objPath b k) ∧
    fs'.pathExists (objPath b k) = fs.pathExists (objPath b k) ∧
    loadObjectMetadata fs' b k = loadObjectMetadata fs b k := by
  have hfr := freshTempName_fresh (fs.mkdirAll (objPath b k).dropLast)
    (objPath b k).dropLast
  have hnone : lookupFile fs.files ((objPath b k).dropLast ++
      [freshTempName (fs.mkdirAll (objPath b k).dropLast)
        (objPath b k).dropLast]) = none := by
    have hx := readFile_eq_none_of_fileExists_false _ _ hfr
    rwa [FS.readFile, files_mkdirAll] at hx
  simp only [PutObject] at h
  by_cases h1 : flt.mkdirFail = true
  · rw [if_pos h1, Prod.mk.injEq] at h
    rw [← h.2]
    exact ⟨rfl, rfl, rfl⟩
  · rw [if_neg h1] at h
    by_cases h2 : flt.createTempFail = true
    · rw [if_pos h2, Prod.mk.injEq] at h
      rw [← h.2]
      exact view_of_files_eq _ _ _ _ rfl (dirExists_mkdirAll_objDir fs b k)
    · rw [if_neg h2] at h
      by_cases h3 : flt.copyFail = true
      · rw [if_pos h3, Prod.mk.injEq] at h
        rw [← h.2]
        have hfiles : ((fs.mkdirAll (objPath b k).dropLast).writeFile
            ((objPath b k).dropLast ++ [freshTempName
              (fs.mkdirAll (objPath b k).dropLast) (objPath b k).dropLast])
            (.bytes [])).files =
            (((objPath b k).dropLast ++ [freshTempName
              (fs.mkdirAll (objPath b k).dropLast) (objPath b k).dropLast]),
              FileContent.bytes []) :: fs.files := by
          show _ :: dropFile fs.files _ = _
          rw [dropFile_of_fresh _ _ hnone]
        have hview := temp_cleanup_view fs _ ((objPath b k).dropLast) _
          (FileContent.bytes []) hnone hfiles rfl
        refine view_of_files_eq _ _ _ _ hview.1 ?_
        rw [dirExists_congr _ _ _ hview.2]
        exact dirExists_mkdirAll_objDir fs b k
      · rw [if_neg h3] at h
        have hfiles2 : (((fs.mkdirAll (objPath b k).dropLast).writeFile
            ((objPath b k).dropLast ++ [freshTempName
              (fs.mkdirAll (objPath b k).dropLast) (objPath b k).dropLast])
            (.bytes [])).writeFile
            ((objPath b k).dropLast ++ [freshTempName
              (fs.mkdirAll (objPath b k).dropLast) (objPath b k).dropLast])
            (.bytes d)).files =
            (((objPath b k).dropLast ++ [freshTempName
              (fs.mkdirAll (objPath b k).dropLast) (objPath b k).dropLast]),
              FileContent.bytes d) :: fs.files := by
          show _ :: dropFile (_ :: dropFile fs.files _) _ = _
          rw [dropFile_cons_self _ _ _ rfl, dropFile_of_fresh _ _ hnone,
            dropFile_of_fresh _ _ hnone]
        by_cases h4 : flt.renameFail = true
        · rw [if_pos h4, Prod.mk.injEq] at h
          rw [← h.2]
          have hview := temp_cleanup_view fs _ ((objPath b k).dropLast) _
            (FileContent.bytes d) hnone hfiles2 rfl
          refine view_of_files_eq _ _ _ _ hview.1 ?_
          rw [dirExists_congr _ _ _ hview.2]
          exact dirExists_mkdirAll_objDir fs b k
        · rw [if_neg h4] at h
          unfold FS.rename at h
          rw [FS.readFile, hfiles2, lookupFile_cons_self _ _ _ rfl] at h
          dsimp only at h
          rw [if_neg (by rw [hmeta]; exact Bool.false_ne_true)] at h
          exact absurd (congrArg Prod.fst h) (by simp)

/-! ### Claim C4 -/

/-- The claimed invariant, as a per-bucket statement: the payload directory
exists exactly when the bucket metadata record does. -/
def BucketInv (fs : FS) (b : String) : Prop :=
  fs.dirExists (dataDir ++ [b]) = fs.fileExists (bucketRecordPath b)

/-- C4 counterexample: from the empty store, a successful PutObject into a
bucket that was never created leaves the payload directory in place with no
bucket metadata record, breaking the claimed equivalence. -/
theorem c4_counterexample :
    (PutObject noFaults md5Fix NewObjectStorage ("b") [("k")] [7] ("t") 0).2.dirExists
        (dataDir ++ [("b")]) = true ∧
    (PutObject noFaults md5Fix NewObjectStorage ("b") [("k")] [7] ("t") 0).2.fileExists
        (bucketRecordPath ("b")) = false :=
  ⟨rfl, rfl⟩

theorem dirExists_writeFile (fs : FS) (p : FsPath) (c : FileContent)
    (q : FsPath) : (fs.writeFile p c).dirExists q = fs.dirExists q :=
  rfl

theorem bucketRecordPath_inj (a b : String)
    (h : bucketRecordPath a = bucketRecordPath b) : a = b := by
  have h2 : [a ++ ".json"] = [b ++ ".json"] := List.append_cancel_left h
  have h3 : a ++ ".json" = b ++ ".json" := by injection h2
  have h4 := congrArg String.data h3
  rw [String.data_append, String.data_append] at h4
  exact String.ext (List.append_cancel_right h4)

theorem addJson_ne_nil (k : FsPath) : addJson k ≠ [] := by
  match k with
  | [] => simp [addJson]
  | [x] => simp [addJson]
  | x :: y :: ys => simp [addJson]

theorem objPath_length (b : String) (k : FsPath) :
    (objPath b k).length = k.length + 2 := by
  simp [objPath, dataDir]

theorem metaPath_length (b : String) (k : FsPath) :
    (metaPath b k).length = (addJson k).length + 2 := by
  simp [metaPath, metadataDir]

theorem remove_keeps (fs fs' : FS) (p q : FsPath)
    (h : fs.remove p = .ok fs') (hne : q ≠ p) :
    fs'.dirExists q = fs.dirExists q ∧ fs'.fileExists q = fs.fileExists q := by
  unfold FS.remove at h
  by_cases h1 : fs.fileExists p = true
  · rw [if_pos h1] at h
    have h2 : fs' = fs.removeFile p := by
      injection h with h3
      exact h3.symm
    subst h2
    refine ⟨rfl, ?_⟩
    rw [fileExists_removeFile, decide_eq_true hne, Bool.true_and]
  · rw [if_neg h1] at h
    by_cases h2 : fs.dirExists p = true
    · rw [if_pos h2] at h
      by_cases h3 : fs.hasChild p = true
      · rw [if_pos h3] at h
        exact absurd h (by simp)
      · rw [if_neg h3] at h
        have h4 : fs' = { fs with
            dirs := fs.dirs.filter (fun dd => decide (dd ≠ p)) } := by
          injection h with h5
          exact h5.symm
        subst h4
        refine ⟨?_, rfl⟩
        rw [FS.dirExists, FS.dirExists]
        show decide (q ∈ fs.dirs.filter _) = _
        by_cases h6 : q ∈ fs.dirs
        · rw [decide_eq_true h6,
            decide_eq_true (List.mem_filter.mpr ⟨h6, by simpa using hne⟩)]
        · rw [decide_eq_false h6,
            decide_eq_false (fun hmem => h6 (List.mem_filter.mp hmem).1)]
    · rw [if_neg h2] at h
      exact absurd h (by simp)

theorem deleteObject_keeps (fs fs' : FS) (bName : String) (k : FsPath)
    (q : FsPath) (hq1 : q ≠ objPath bName k)
    (hq2 : q ≠ dataDir ++ [bName] ++ addJson k)
    (h : DeleteObject fs bName k = .ok fs') :
    fs'.dirExists q = fs.dirExists q ∧ fs'.fileExists q = fs.fileExists q := by
  simp only [DeleteObject] at h
  rcases hrem : fs.remove (objPath bName k) with er | fs1
  all_goals rw [hrem] at h
  · rcases er with _ | _
    · dsimp only at h
      rcases hrem2 : fs.remove (dataDir ++ [bName] ++ addJson k) with er2 | fs2
      all_goals rw [hrem2] at h
      · rcases er2 with _ | _
        · dsimp only at h
          injection h with h5
          subst h5
          exact ⟨rfl, rfl⟩
        · exact absurd h (by simp)
      · dsimp only at h
        injection h with h5
        subst h5
        exact remove_keeps fs fs2 _ q hrem2 hq2
    · exact absurd h (by simp)
  · dsimp only at h
    have hk1 := remove_keeps fs fs1 _ q hrem hq1
    rcases hrem2 : fs1.remove (dataDir ++ [bName] ++ addJson k) with er2 | fs2
    all_goals rw [hrem2] at h
    · rcases er2 with _ | _
      · dsimp only at h
        injection h with h5
        subst h5
        exact hk1
      · exact absurd h (by simp)
    · dsimp only at h
      injection h with h5
      subst h5
      have hk2 := remove_keeps fs1 fs2 _ q hrem2 hq2
      exact ⟨hk2.1.trans hk1.1, hk2.2.trans hk1.2⟩

theorem createBucket_keeps_inv (fs : FS) (name : String) (now : Nat)
    (b' : String) (hinv : BucketInv fs b') :
    BucketInv (CreateBucket fs name now) b' := by
  unfold BucketInv
  simp only [CreateBucket, saveBucketMetaData, dirExists_writeFile,
    dirExists_mkdirAll, fileExists_writeFile, fileExists_mkdirAll]
  by_cases hb : b' = name
  · subst hb
    rw [decide_eq_true (List.prefix_rfl : (dataDir ++ [b']) <+: dataDir ++ [b']),
      decide_eq_true (rfl : bucketRecordPath b' = bucketRecordPath b')]
    rw [Bool.or_true, Bool.true_or, Bool.true_or]
  · have hd1 : ¬ ((dataDir ++ [b']) <+: (dataDir ++ [name])) := by
      intro hpre
      have h1 := hpre.eq_of_length rfl
      have h2 : [b'] = [name] := List.append_cancel_left h1
      have h3 : b' = name := by injection h2
      exact hb h3
    have hd2 : ¬ ((dataDir ++ [b']) <+: (bucketRecordPath name).dropLast) := by
      intro hpre
      have h1 := hpre.length_le
      have h2 : (dataDir ++ [b']).length = 2 := rfl
      have h3 : ((bucketRecordPath name).dropLast).length = 1 := rfl
      omega
    have hf1 : bucketRecordPath b' ≠ bucketRecordPath name :=
      fun h => hb (bucketRecordPath_inj _ _ h)
    rw [decide_eq_false hd1, decide_eq_false hd2, decide_eq_false hf1,
      Bool.or_false, Bool.or_false, Bool.false_or]
    exact hinv

theorem putObject_keeps_inv (md5Hex : List Nat → String) (fs : FS)
    (bName : String) (k : FsPath) (d : List Nat) (ct : String) (now : Nat)
    (b' : String) (hk : k ≠ [])
    (hdir : fs.dirExists (dataDir ++ [bName]) = true)
    (hinv : BucketInv fs b') :
    BucketInv (PutObject noFaults md5Hex fs bName k d ct now).2 b' := by
  unfold BucketInv
  rw [dirExists_putObject, fileExists_putObject]
  have hne1 : bucketRecordPath b' ≠ metaPath bName k := by
    intro hEq
    have h1 := congrArg List.length hEq
    rw [metaPath_length] at h1
    have h3 : (bucketRecordPath b').length = 2 := rfl
    have h4 := List.length_pos.mpr (addJson_ne_nil k)
    omega
  have hne2 : bucketRecordPath b' ≠ objPath bName k := by
    intro hEq
    have h1 := congrArg List.length hEq
    rw [objPath_length] at h1
    have h3 : (bucketRecordPath b').length = 2 := rfl
    have h4 := List.length_pos.mpr hk
    omega
  rw [decide_eq_false hne1, decide_eq_false hne2, Bool.false_or, Bool.false_or]
  by_cases hb : b' = bName
  · subst hb
    rw [hdir, Bool.true_or, Bool.true_or]
    unfold BucketInv at hinv
    rw [← hinv, hdir]
  · rcases List.exists_cons_of_ne_nil hk with ⟨x, xs, rfl⟩
    have hd1 : ¬ ((dataDir ++ [b']) <+: (objPath bName (x :: xs)).dropLast) := by
      intro hpre
      rcases hpre with ⟨t, ht⟩
      have ht2 : "data" :: b' :: t =
          "data" :: (bName :: x :: xs).dropLast := by
        rw [← List.dropLast_cons₂]
        exact ht
      injection ht2 with _ ht3
      have ht4 : b' :: t = bName :: (x :: xs).dropLast := by
        rw [← List.dropLast_cons₂]
        exact ht3
      injection ht4 with ht5 _
      exact hb ht5
    have hd2 : ¬ ((dataDir ++ [b']) <+: (metaPath bName (x :: xs)).dropLast) := by
      intro hpre
      rcases hpre with ⟨t, ht⟩
      have ht2 : "data" :: b' :: t =
          "metadata" :: (bName :: addJson (x :: xs)).dropLast := by
        rw [← List.dropLast_cons₂]
        exact ht
      injection ht2 with hbad _
      exact absurd hbad (by decide)
    rw [decide_eq_false hd1, decide_eq_false hd2, Bool.or_false, Bool.or_false]
    exact hinv

theorem length_two_ne_obj (q : FsPath) (hq : q.length = 2) (bName : String)
    (k : FsPath) (hk : k ≠ []) : q ≠ objPath bName k := by
  intro hEq
  have h1 := congrArg List.length hEq
  rw [hq, objPath_length] at h1
  have h2 := List.length_pos.mpr hk
  omega

theorem length_two_ne_delMeta (q : FsPath) (hq : q.length = 2) (bName : String)
    (k : FsPath) : q ≠ dataDir ++ [bName] ++ addJson k := by
  intro hEq
  have h1 := congrArg List.length hEq
  have h2 : (dataDir ++ [bName] ++ addJson k).length = (addJson k).length + 2 := by
    simp [dataDir]
  have h3 := List.length_pos.mpr (addJson_ne_nil k)
  omega

/-- C4 amended: the directory-iff-record equivalence is established and
preserved by CreateBucket, preserved by every successful DeleteObject, and
preserved by fault-free PutObject provided the target bucket's payload
directory already exists; the read-only operations do not change the store.
It is not an invariant of PutObject into a bucket that was never created
(see the counterexample). -/
theorem c4_bucket_dir_record_inv :
    (∀ fs name now b', BucketInv fs b' →
      BucketInv (CreateBucket fs name now) b') ∧
    (∀ fs fs' bName k b', ValidKey k → DeleteObject fs bName k = .ok fs' →
      BucketInv fs b' → BucketInv fs' b') ∧
    (∀ md5Hex fs bName k d ct now b', ValidKey k →
      fs.dirExists (dataDir ++ [bName]) = true → BucketInv fs b' →
      BucketInv (PutObject noFaults md5Hex fs bName k d ct now).2 b') := by
  refine ⟨createBucket_keeps_inv, ?_, ?_⟩
  · intro fs fs' bName k b' hk hdel hinv
    unfold BucketInv at hinv ⊢
    have hk1 := deleteObject_keeps fs fs' bName k (dataDir ++ [b'])
      (length_two_ne_obj (dataDir ++ [b']) rfl bName k hk.1)
      (length_two_ne_delMeta (dataDir ++ [b']) rfl bName k) hdel
    have hk2 := deleteObject_keeps fs fs' bName k (bucketRecordPath b')
      (length_two_ne_obj (bucketRecordPath b') rfl bName k hk.1)
      (length_two_ne_delMeta (bucketRecordPath b') rfl bName k) hdel
    rw [hk1.1, hk2.2, hinv]
  · intro md5Hex fs bName k d ct now b' hk hdir hinv
    exact putObject_keeps_inv md5Hex fs bName k d ct now b' hk.1 hdir hinv

/-- C4 witness: the fresh store satisfies the invariant for bucket `b`, and
CreateBucket preserves (in fact establishes) it. -/
theorem c4_witness :
    BucketInv NewObjectStorage ("b") ∧
    BucketInv (CreateBucket NewObjectStorage ("b") 3) ("b") :=
  ⟨rfl, c4_bucket_dir_record_inv.1 NewObjectStorage ("b") 3 ("b") rfl⟩

/-! ### Claim C2 witness -/

/-- C2 witness: a concrete failed copy leaves the reader view of the key
unchanged. -/
theorem c2_witness :
    ((⟨false, false, true, false, false⟩ : PutFaults).saveMetaFail = false) ∧
    (PutObject ⟨false, false, true, false, false⟩ md5Fix NewObjectStorage
        ("b") [("k")] [7] ("t") 0).2.readFile (objPath ("b") [("k")]) =
      NewObjectStorage.readFile (objPath ("b") [("k")]) :=
  ⟨rfl, (c2_put_failure_preserves_view ⟨false, false, true, false, false⟩
    md5Fix NewObjectStorage ("b") [("k")] [7] ("t") 0 .writeDataFailed _
    rfl rfl).1⟩

/-! ### Claim C7 -/

/-- One PutObject request: key, payload, content type, timestamp. -/
structure PutReq where
  key : FsPath
  data : List Nat
  contentType : String
  now : Nat
deriving DecidableEq, Repr

def reqMeta (md5Hex : List Nat → String) (r : PutReq) : ObjectMetadata :=
  putMeta md5Hex r.key r.data r.contentType r.now

/-- Fold a sequence of fault-free PutObject calls over one bucket. -/
def putMany (md5Hex : List Nat → String) (bName : String) (fs : FS) :
    List PutReq → FS
  | [] => fs
  | r :: rs => putMany md5Hex bName
      (PutObject noFaults md5Hex fs bName r.key r.data r.contentType r.now).2 rs

/-- The file entries such a sequence prepends to the store (latest first). -/
def expFiles (md5Hex : List Nat → String) (bName : String) :
    List PutReq → List (FsPath × FileContent)
  | [] => []
  | r :: rs => expFiles md5Hex bName rs ++
      [(metaPath bName r.key, .objMeta (reqMeta md5Hex r)),
       (objPath bName r.key, .bytes r.data)]

/-- Two keys that do not collide on disk: neither is a payload-path ancestor
of the other and neither metadata path is an ancestor of the other (in the
source, a pair of puts violating this cannot both succeed: `MkdirAll`,
`Rename` or `WriteFile` hits a file/directory conflict). -/
def KeyIndep (k1 k2 : FsPath) : Prop :=
  k1.isPrefixOf k2 = false ∧ k2.isPrefixOf k1 = false ∧
  (addJson k1).isPrefixOf (addJson k2) = false ∧
  (addJson k2).isPrefixOf (addJson k1) = false

theorem isPrefixOf_self (l : FsPath) : l.isPrefixOf l = true := by
  induction l with
  | nil => rfl
  | cons a l ih => simp [List.isPrefixOf, ih]

theorem KeyIndep.ne (k1 k2 : FsPath) (h : KeyIndep k1 k2) : k1 ≠ k2 := by
  intro hEq
  subst hEq
  have h1 := h.1
  rw [isPrefixOf_self] at h1
  exact absurd h1 (by simp)

theorem append_json_inj (a b : String) (h : a ++ ".json" = b ++ ".json") :
    a = b := by
  have h4 := congrArg String.data h
  rw [String.data_append, String.data_append] at h4
  exact String.ext (List.append_cancel_right h4)

theorem addJson_inj (k1 : FsPath) : ∀ (k2 : FsPath), k1 ≠ [] → k2 ≠ [] →
    addJson k1 = addJson k2 → k1 = k2 := by
  induction k1 with
  | nil => exact fun k2 h1 _ _ => absurd rfl h1
  | cons x xs ih =>
    intro k2 h1 h2 h
    rcases k2 with _ | ⟨y, ys⟩
    · exact absurd rfl h2
    · rcases xs with _ | ⟨x2, xs2⟩
      · rcases ys with _ | ⟨y2, ys2⟩
        · simp only [addJson] at h
          have h3 : x ++ ".json" = y ++ ".json" := by injection h
          rw [append_json_inj _ _ h3]
        · simp only [addJson] at h
          exfalso
          have h4 := congrArg List.length h
          simp only [List.length_cons, List.length_nil] at h4
          have h5 := List.length_pos.mpr (addJson_ne_nil (y2 :: ys2))
          omega
      · rcases ys with _ | ⟨y2, ys2⟩
        · simp only [addJson] at h
          exfalso
          have h4 := congrArg List.length h
          simp only [List.length_cons, List.length_nil] at h4
          have h5 := List.length_pos.mpr (addJson_ne_nil (x2 :: xs2))
          omega
        · simp only [addJson] at h
          injection h with hx htail
          rw [hx, ih (y2 :: ys2) (by simp) (by simp) htail]

theorem objPath_inj (bName : String) (k1 k2 : FsPath)
    (h : objPath bName k1 = objPath bName k2) : k1 = k2 := by
  have h2 : "data" :: bName :: k1 = "data" :: bName :: k2 := h
  injection h2 with _ h3
  injection h3

theorem metaPath_inj (bName : String) (k1 k2 : FsPath) (h1 : k1 ≠ [])
    (h2 : k2 ≠ []) (h : metaPath bName k1 = metaPath bName k2) : k1 = k2 := by
  have h3 : "metadata" :: bName :: addJson k1 =
      "metadata" :: bName :: addJson k2 := h
  injection h3 with _ h4
  injection h4 with _ h5
  exact addJson_inj k1 k2 h1 h2 h5

theorem putObject_files_fresh (md5Hex : List Nat → String) (fs : FS)
    (bName : String) (r : PutReq)
    (h1 : lookupFile fs.files (objPath bName r.key) = none)
    (h2 : lookupFile fs.files (metaPath bName r.key) = none) :
    (PutObject noFaults md5Hex fs bName r.key r.data r.contentType r.now).2.files =
      (metaPath bName r.key, .objMeta (reqMeta md5Hex r)) ::
      (objPath bName r.key, .bytes r.data) :: fs.files := by
  rw [putObject_noFaults]
  show _ :: _ :: dropFile (dropFile fs.files _) _ = _
  rw [dropFile_of_fresh _ _ h1, dropFile_of_fresh _ _ h2]
  rfl

theorem putMany_files (md5Hex : List Nat → String) (bName : String)
    (rs : List PutReq) (fs : FS)
    (hfresh : ∀ r ∈ rs, lookupFile fs.files (objPath bName r.key) = none ∧
      lookupFile fs.files (metaPath bName r.key) = none)
    (hpw : rs.Pairwise (fun r1 r2 => r1.key ≠ r2.key))
    (hne : ∀ r ∈ rs, r.key ≠ []) :
    (putMany md5Hex bName fs rs).files =
      expFiles md5Hex bName rs ++ fs.files := by
  induction rs generalizing fs with
  | nil =>
    rw [putMany, expFiles, List.nil_append]
  | cons r rs ih =>
    rcases List.pairwise_cons.mp hpw with ⟨hhead, htail⟩
    have hfr := hfresh r (List.mem_cons_self r rs)
    have hfiles := putObject_files_fresh md5Hex fs bName r hfr.1 hfr.2
    rw [putMany, ih _ ?_ htail ?_]
    · rw [hfiles, expFiles, List.append_assoc]
      rfl
    · intro r' hr'
      rw [hfiles]
      have hno : metaPath bName r.key ≠ objPath bName r'.key :=
        Ne.symm (objPath_ne_metaPath bName bName r'.key r.key)
      have hno2 : objPath bName r.key ≠ objPath bName r'.key :=
        fun hEq => hhead r' hr' (objPath_inj bName _ _ hEq)
      have hno3 : metaPath bName r.key ≠ metaPath bName r'.key :=
        fun hEq => hhead r' hr' (metaPath_inj bName _ _
          (hne r (List.mem_cons_self r rs))
          (hne r' (List.mem_cons_of_mem r hr')) hEq)
      have hno4 : objPath bName r.key ≠ metaPath bName r'.key :=
        objPath_ne_metaPath bName bName r.key r'.key
      constructor
      · rw [lookupFile_cons_ne _ _ _ hno, lookupFile_cons_ne _ _ _ hno2]
        exact (hfresh r' (List.mem_cons_of_mem r hr')).1
      · rw [lookupFile_cons_ne _ _ _ hno3, lookupFile_cons_ne _ _ _ hno4]
        exact (hfresh r' (List.mem_cons_of_mem r hr')).2
    · intro r' hr'
      exact hne r' (List.mem_cons_of_mem r hr')

theorem putMany_keeps_dirs (md5Hex : List Nat → String) (bName : String)
    (rs : List PutReq) (fs : FS) (q : FsPath)
    (h : fs.dirExists q = true) :
    (putMany md5Hex bName fs rs).dirExists q = true := by
  induction rs generalizing fs with
  | nil => exact h
  | cons r rs ih =>
    rw [putMany]
    refine ih _ ?_
    rw [dirExists_putObject, h]
    rfl

theorem putMany_creates_bucket_dir (md5Hex : List Nat → String)
    (bName : String) (rs : List PutReq) (fs : FS) (hrs : rs ≠ [])
    (hkeys : ∀ r ∈ rs, r.key ≠ []) :
    (putMany md5Hex bName fs rs).dirExists (dataDir ++ [bName]) = true := by
  rcases rs with _ | ⟨r, rs⟩
  · exact absurd rfl hrs
  · rw [putMany]
    refine putMany_keeps_dirs md5Hex bName rs _ _ ?_
    rw [dirExists_putObject, decide_eq_true
      (dataBucket_le_objDir bName r.key (hkeys r (List.mem_cons_self r rs)))]
    rw [Bool.or_true, Bool.true_or]

theorem sel_meta_none (bName b2 : String) (k : FsPath) :
    (if under (dataDir ++ [bName]) (metaPath b2 k) &&
        decide ((dataDir ++ [bName]).length < (metaPath b2 k).length)
      then some ((metaPath b2 k).drop (dataDir ++ [bName]).length)
      else none) = none := by
  have hu : under (dataDir ++ [bName]) (metaPath b2 k) = false := by
    rw [under]
    apply decide_eq_false
    intro h
    have h2 : (["metadata", b2] : FsPath) = ["data", bName] := h
    injection h2 with hbad _
    exact absurd hbad (by decide)
  rw [hu, Bool.false_and, if_neg Bool.false_ne_true]

theorem sel_obj_some (bName : String) (k : FsPath) (hk : k ≠ []) :
    (if under (dataDir ++ [bName]) (objPath bName k) &&
        decide ((dataDir ++ [bName]).length < (objPath bName k).length)
      then some ((objPath bName k).drop (dataDir ++ [bName]).length)
      else none) = some k := by
  have hu : under (dataDir ++ [bName]) (objPath bName k) = true := by
    rw [under]
    exact decide_eq_true rfl
  have hl : decide ((dataDir ++ [bName]).length < (objPath bName k).length) =
      true := by
    apply decide_eq_true
    show 2 < (objPath bName k).length
    rw [objPath_length]
    have := List.length_pos.mpr hk
    omega
  rw [hu, hl, Bool.true_and, if_pos rfl]
  rfl

theorem filesUnder_expFiles (md5Hex : List Nat → String) (bName : String)
    (rs : List PutReq) (hne : ∀ r ∈ rs, r.key ≠ []) :
    (expFiles md5Hex bName rs).filterMap (fun e =>
      if under (dataDir ++ [bName]) e.1 &&
          decide ((dataDir ++ [bName]).length < e.1.length)
      then some (e.1.drop (dataDir ++ [bName]).length) else none) =
      (rs.map (fun r => r.key)).reverse := by
  induction rs with
  | nil => rfl
  | cons r rs ih =>
    rw [expFiles, List.filterMap_append,
      ih (fun r' h => hne r' (List.mem_cons_of_mem r h)), List.map_cons,
      List.reverse_cons]
    congr 1
    simp only [List.filterMap_cons, List.filterMap_nil]
    rw [sel_meta_none bName bName r.key,
      sel_obj_some bName r.key (hne r (List.mem_cons_self r rs))]

theorem filterMap_dropFile_none (f : FsPath × FileContent → Option FsPath)
    (L : List (FsPath × FileContent)) (mp : FsPath)
    (hf : ∀ c, f (mp, c) = none) :
    (dropFile L mp).filterMap f = L.filterMap f := by
  induction L with
  | nil => rfl
  | cons e L ih =>
    by_cases h : e.1 = mp
    · rw [dropFile_cons_self _ _ _ h, ih, List.filterMap_cons]
      have he2 : e = (mp, e.2) := by
        rw [← h]
      have he : f e = none := by
        rw [he2]
        exact hf e.2
      rw [he]
    · rw [dropFile_cons_ne _ _ _ h, List.filterMap_cons, List.filterMap_cons,
        ih]

theorem lookup_unique (L : List (FsPath × FileContent)) (p : FsPath)
    (c : FileContent) (hmem : (p, c) ∈ L)
    (huniq : ∀ c', (p, c') ∈ L → c' = c) :
    lookupFile L p = some c := by
  induction L with
  | nil => exact absurd hmem (by simp)
  | cons e L ih =>
    by_cases h : e.1 = p
    · rw [lookupFile_cons_self _ _ _ h]
      have he2 : (p, e.2) = e := by
        rw [← h]
      rw [huniq e.2 (by rw [he2]; exact List.mem_cons_self e L)]
    · rw [lookupFile_cons_ne _ _ _ h]
      refine ih ?_ ?_
      · rcases List.mem_cons.mp hmem with hEq | h2
        · exact absurd (congrArg Prod.fst hEq.symm) h
        · exact h2
      · intro c' hc'
        exact huniq c' (List.mem_cons_of_mem e hc')

theorem mem_dropFile (L : List (FsPath × FileContent)) (mp : FsPath)
    (e : FsPath × FileContent) :
    e ∈ dropFile L mp ↔ e ∈ L ∧ e.1 ≠ mp := by
  induction L with
  | nil => simp [dropFile]
  | cons a L ih =>
    by_cases h : a.1 = mp
    · rw [dropFile_cons_self _ _ _ h, ih]
      constructor
      · rintro ⟨h1, h2⟩
        exact ⟨List.mem_cons_of_mem a h1, h2⟩
      · rintro ⟨h1, h2⟩
        rcases List.mem_cons.mp h1 with rfl | h3
        · exact absurd h h2
        · exact ⟨h3, h2⟩
    · rw [dropFile_cons_ne _ _ _ h, List.mem_cons, ih, List.mem_cons]
      constructor
      · rintro (rfl | ⟨h1, h2⟩)
        · exact ⟨Or.inl rfl, h⟩
        · exact ⟨Or.inr h1, h2⟩
      · rintro ⟨rfl | h1, h2⟩
        · exact Or.inl rfl
        · exact Or.inr ⟨h1, h2⟩

theorem mem_expFiles (md5Hex : List Nat → String) (bName : String)
    (rs : List PutReq) (e : FsPath × FileContent) :
    e ∈ expFiles md5Hex bName rs ↔ ∃ r ∈ rs,
      e = (metaPath bName r.key, .objMeta (reqMeta md5Hex r)) ∨
      e = (objPath bName r.key, .bytes r.data) := by
  induction rs with
  | nil => simp [expFiles]
  | cons r rs ih =>
    rw [expFiles, List.mem_append, ih]
    constructor
    · rintro (⟨r', hr', hc⟩ | hmem)
      · exact ⟨r', List.mem_cons_of_mem r hr', hc⟩
      · rcases List.mem_cons.mp hmem with rfl | hmem2
        · exact ⟨r, List.mem_cons_self r rs, Or.inl rfl⟩
        · rcases List.mem_cons.mp hmem2 with rfl | hmem3
          · exact ⟨r, List.mem_cons_self r rs, Or.inr rfl⟩
          · exact absurd hmem3 (by simp)
    · rintro ⟨r', hr', hc⟩
      rcases List.mem_cons.mp hr' with rfl | hr2
      · rcases hc with rfl | rfl
        · exact Or.inr (List.mem_cons_self _ _)
        · exact Or.inr (List.mem_cons_of_mem _ (List.mem_cons_self _ _))
      · exact Or.inl ⟨r', hr2, hc⟩

theorem keys_unique (rs : List PutReq)
    (hpw : rs.Pairwise (fun r1 r2 => r1.key ≠ r2.key)) :
    ∀ r ∈ rs, ∀ r' ∈ rs, r.key = r'.key → r = r' := by
  induction rs with
  | nil =>
    intro r h
    cases h
  | cons a rs ih =>
    rcases List.pairwise_cons.mp hpw with ⟨hhead, htail⟩
    intro r hr r' hr' hk
    rcases List.mem_cons.mp hr with rfl | hr1
    · rcases List.mem_cons.mp hr' with rfl | hr1'
      · rfl
      · exact absurd hk (hhead r' hr1')
    · rcases List.mem_cons.mp hr' with rfl | hr1'
      · exact absurd hk.symm (hhead r hr1)
      · exact ih htail r hr1 r' hr1' hk

theorem filter_ne_length (rs : List PutReq) (rc : PutReq) (hmem : rc ∈ rs)
    (hpw : rs.Pairwise (fun r1 r2 => r1.key ≠ r2.key)) :
    (rs.filter (fun r => decide (r.key ≠ rc.key))).length + 1 = rs.length := by
  induction rs with
  | nil => cases hmem
  | cons r rs ih =>
    rcases List.pairwise_cons.mp hpw with ⟨hhead, htail⟩
    rcases List.mem_cons.mp hmem with rfl | hmem'
    · rw [List.filter_cons_of_neg (by simp)]
      have hall : rs.filter (fun x => decide (x.key ≠ rc.key)) = rs := by
        rw [List.filter_eq_self]
        intro x hx
        simp only [decide_eq_true_eq]
        exact fun hEq => hhead x hx hEq.symm
      rw [hall, List.length_cons]
    · have hr : r.key ≠ rc.key := hhead rc hmem'
      rw [List.filter_cons_of_pos (by simpa using hr)]
      have h2 := ih hmem' htail
      rw [List.length_cons, List.length_cons]
      omega

theorem filterMap_ite (md5Hex : List Nat → String) (rc : PutReq)
    (rs : List PutReq) :
    rs.filterMap (fun r => if r.key = rc.key then none
      else some (reqMeta md5Hex r)) =
    (rs.filter (fun r => decide (r.key ≠ rc.key))).map (reqMeta md5Hex) := by
  induction rs with
  | nil => rfl
  | cons r rs ih =>
    by_cases h : r.key = rc.key <;>
      simp [List.filterMap_cons, List.filter_cons, h, ih]

/-- C7: after a sequence of successful puts with pairwise non-colliding keys
into one bucket of the fresh store, replacing exactly one object's metadata
record with undecodable content leaves ListObjects returning precisely the
descriptors of all the other objects: a permutation of the descriptor list
with only the corrupted key's entry removed, of length N-1. -/
theorem c7_corruption_tolerance (md5Hex : List Nat → String) (bName : String)
    (rs : List PutReq) (rc : PutReq) (hmem : rc ∈ rs)
    (hb : ValidName bName)
    (hkeys : ∀ r ∈ rs, ValidKey r.key)
    (hind : rs.Pairwise (fun r1 r2 => KeyIndep r1.key r2.key)) :
    ∃ os, ListObjects ((putMany md5Hex bName NewObjectStorage rs).writeFile
        (metaPath bName rc.key) .junk) bName = .ok os ∧
      os.Perm ((rs.filter (fun r => decide (r.key ≠ rc.key))).map
        (reqMeta md5Hex)) ∧
      os.length + 1 = rs.length := by
  have hpw : rs.Pairwise (fun r1 r2 => r1.key ≠ r2.key) :=
    hind.imp (fun h => KeyIndep.ne _ _ h)
  have hne : ∀ r ∈ rs, r.key ≠ [] := fun r hr => (hkeys r hr).1
  have hNfiles : (putMany md5Hex bName NewObjectStorage rs).files =
      expFiles md5Hex bName rs := by
    rw [putMany_files md5Hex bName rs NewObjectStorage
      (fun r hr => ⟨rfl, rfl⟩) hpw hne]
    rw [show NewObjectStorage.files = [] from rfl, List.append_nil]
  have hCfiles : ((putMany md5Hex bName NewObjectStorage rs).writeFile
      (metaPath bName rc.key) FileContent.junk).files =
      (metaPath bName rc.key, FileContent.junk) ::
      dropFile (expFiles md5Hex bName rs) (metaPath bName rc.key) := by
    show _ :: dropFile (putMany md5Hex bName NewObjectStorage rs).files _ = _
    rw [hNfiles]
  have hdir : ((putMany md5Hex bName NewObjectStorage rs).writeFile
      (metaPath bName rc.key) FileContent.junk).dirExists
      (dataDir ++ [bName]) = true := by
    show (putMany md5Hex bName NewObjectStorage rs).dirExists _ = true
    refine putMany_creates_bucket_dir md5Hex bName rs NewObjectStorage ?_ hne
    rintro rfl
    cases hmem
  have hFU : ((putMany md5Hex bName NewObjectStorage rs).writeFile
      (metaPath bName rc.key) FileContent.junk).filesUnder
      (dataDir ++ [bName]) = (rs.map (fun r => r.key)).reverse := by
    show (((putMany md5Hex bName NewObjectStorage rs).writeFile
      (metaPath bName rc.key) FileContent.junk).files).filterMap _ = _
    rw [hCfiles, List.filterMap_cons]
    rw [sel_meta_none bName bName rc.key]
    rw [filterMap_dropFile_none _ _ _ (fun c => sel_meta_none bName bName rc.key)]
    exact filesUnder_expFiles md5Hex bName rs hne
  have hload : ∀ r ∈ rs, (loadObjectMetadata
      ((putMany md5Hex bName NewObjectStorage rs).writeFile
        (metaPath bName rc.key) FileContent.junk) bName r.key).toOption =
      if r.key = rc.key then none else some (reqMeta md5Hex r) := by
    intro r hr
    by_cases h : r.key = rc.key
    · rw [if_pos h]
      unfold loadObjectMetadata
      rw [FS.readFile, hCfiles, h, lookupFile_cons_self _ _ _ rfl]
      rfl
    · rw [if_neg h]
      unfold loadObjectMetadata
      rw [FS.readFile, hCfiles]
      rw [lookupFile_cons_ne _ _ _ (fun hEq => h (metaPath_inj bName _ _
        (hne rc hmem) (hne r hr) hEq).symm)]
      have hmemX : (metaPath bName r.key,
          FileContent.objMeta (reqMeta md5Hex r)) ∈
          dropFile (expFiles md5Hex bName rs) (metaPath bName rc.key) := by
        refine (mem_dropFile _ _ _).mpr ⟨?_, ?_⟩
        · exact (mem_expFiles md5Hex bName rs _).mpr ⟨r, hr, Or.inl rfl⟩
        · exact fun hEq => h (metaPath_inj bName _ _ (hne r hr)
            (hne rc hmem) hEq)
      have huniqX : ∀ c', (metaPath bName r.key, c') ∈
          dropFile (expFiles md5Hex bName rs) (metaPath bName rc.key) →
          c' = FileContent.objMeta (reqMeta md5Hex r) := by
        intro c' hc'
        have hin := ((mem_dropFile _ _ _).mp hc').1
        rcases (mem_expFiles md5Hex bName rs _).mp hin with ⟨r'', hr'', hc⟩
        rcases hc with hc | hc
        · have hfst := congrArg Prod.fst hc
          have hkeq := metaPath_inj bName _ _ (hne r hr) (hne r'' hr'') hfst
          have hreq : r = r'' := keys_unique rs hpw r hr r'' hr''
            (by rw [hkeq])
          subst hreq
          exact congrArg Prod.snd hc
        · have hfst := congrArg Prod.fst hc
          exact absurd hfst.symm (objPath_ne_metaPath bName bName r''.key r.key)
      rw [lookup_unique _ _ _ hmemX huniqX]
      rfl
  have hLO : ListObjects ((putMany md5Hex bName NewObjectStorage rs).writeFile
      (metaPath bName rc.key) FileContent.junk) bName =
      .ok ((((putMany md5Hex bName NewObjectStorage rs).writeFile
        (metaPath bName rc.key) FileContent.junk).filesUnder
        (dataDir ++ [bName])).filterMap
        (fun rel => (loadObjectMetadata
          ((putMany md5Hex bName NewObjectStorage rs).writeFile
            (metaPath bName rc.key) FileContent.junk) bName rel).toOption)) := by
    simp only [ListObjects, hdir, if_true]
  have hchain : ((((putMany md5Hex bName NewObjectStorage rs).writeFile
      (metaPath bName rc.key) FileContent.junk).filesUnder
      (dataDir ++ [bName])).filterMap
      (fun rel => (loadObjectMetadata
        ((putMany md5Hex bName NewObjectStorage rs).writeFile
          (metaPath bName rc.key) FileContent.junk) bName rel).toOption)) =
      ((rs.filter (fun r => decide (r.key ≠ rc.key))).map
        (reqMeta md5Hex)).reverse := by
    rw [hFU, List.filterMap_reverse, List.filterMap_map]
    have hcomp : ∀ r ∈ rs, ((fun rel => (loadObjectMetadata
        ((putMany md5Hex bName NewObjectStorage rs).writeFile
          (metaPath bName rc.key) FileContent.junk) bName rel).toOption) ∘
        (fun (r : PutReq) => r.key)) r =
        (fun r => if r.key = rc.key then none
          else some (reqMeta md5Hex r)) r := fun r hr => hload r hr
    rw [List.filterMap_congr hcomp, filterMap_ite]
  refine ⟨_, hLO, ?_, ?_⟩
  · rw [hchain]
    exact List.reverse_perm _
  · rw [hchain, List.length_reverse, List.length_map]
    exact filter_ne_length rs rc hmem hpw

instance (k1 k2 : FsPath) : Decidable (KeyIndep k1 k2) := by
  unfold KeyIndep
  infer_instance

/-- Three concrete puts with independent keys. -/
def crs : List PutReq :=
  [⟨[("a")], [1], ("t"), 0⟩, ⟨[("b")], [2, 2], ("t"), 1⟩,
   ⟨[("c")], [3], ("t"), 2⟩]

/-- C7 witness: corrupting the middle object's record of three leaves the
other two listed. -/
theorem c7_witness :
    ∃ os, ListObjects ((putMany md5Fix ("bkt") NewObjectStorage crs).writeFile
        (metaPath ("bkt") [("b")]) .junk) ("bkt") = .ok os ∧
      os.Perm ((crs.filter (fun r => decide (r.key ≠ [("b")]))).map
        (reqMeta md5Fix)) ∧
      os.length + 1 = crs.length :=
  c7_corruption_tolerance md5Fix ("bkt") crs ⟨[("b")], [2, 2], ("t"), 1⟩
    (by decide) (by decide) (by decide) (by decide)

/-- C3 witness: on the ghost store the fabricated record is in the returned
list. -/
theorem c3_witness :
    ({ name := ("ghost"), created := 42 } : Bucket) ∈
      [({ name := ("ghost"), created := 42 } : Bucket)] :=
  (c3_listbuckets_fabricates fsC3 42 ("ghost")
    [{ name := ("ghost"), created := 42 }] rfl rfl rfl).2.1 rfl
